import Mathlib

/-!
Verification of the structural document-analysis core of the vscode-docker
extension: the Dockerfile FROM-line matcher, the file-classification glob
patterns, the Compose structural parser with its position resolver and
completion/hover providers, and the image quick-pick item computation.

Regular expressions from the source are embedded via a small matcher whose
semantics is the list of possible remainders after matching a prefix.
-/

namespace VSDocker

/-- A regular expression over characters, with character-class leaves.
Stars are restricted to character classes (all patterns in the source have
this shape), which keeps the matcher structurally recursive. -/
inductive RE where
  | eps
  | cls (p : Char → Bool)
  | cat (a b : RE)
  | alt (a b : RE)
  | opt (r : RE)
  | starCls (p : Char → Bool)

/-- Remainders after `[p]*` consumes a prefix of the input: every suffix
obtained by dropping a leading run of `p`-characters. -/
def starMatches (p : Char → Bool) : List Char → List (List Char)
  | [] => [[]]
  | c :: s => (c :: s) :: (if p c then starMatches p s else [])

/-- All possible remainders after `r` matches a prefix of the input. -/
def reMatches : RE → List Char → List (List Char)
  | .eps, s => [s]
  | .cls p, s =>
    match s with
    | [] => []
    | c :: s' => if p c then [s'] else []
  | .cat a b, s => (reMatches a s).flatMap (reMatches b)
  | .alt a b, s => reMatches a s ++ reMatches b s
  | .opt r, s => reMatches r s ++ [s]
  | .starCls p, s => starMatches p s

/-- Anchored (full-input) match: the empty remainder is reachable. -/
def reFullL (r : RE) (s : List Char) : Bool := decide ([] ∈ reMatches r s)

/-- Anchored (full-string) match: the empty remainder is reachable. -/
def reFull (r : RE) (s : String) : Bool := reFullL r s.data

/-- JavaScript's `\s` class (ECMAScript WhiteSpace ∪ LineTerminator). -/
def isJsSpace (c : Char) : Bool :=
  let n := c.toNat
  n = 32 || n = 9 || n = 10 || n = 13 || n = 11 || n = 12 ||
  n = 0xa0 || n = 0x1680 || (0x2000 ≤ n && n ≤ 0x200a) ||
  n = 0x2028 || n = 0x2029 || n = 0x202f || n = 0x205f || n = 0x3000 || n = 0xfeff

/-- JavaScript's `\w` class: ASCII letters, digits, underscore. -/
def isWordChar (c : Char) : Bool :=
  let n := c.toNat
  (97 ≤ n && n ≤ 122) || (65 ≤ n && n ≤ 90) || (48 ≤ n && n ≤ 57) || n = 95

/-- ASCII letter (`[a-z]` under the `i` flag, or `[a-zA-Z]`). -/
def isAsciiLetter (c : Char) : Bool :=
  let n := c.toNat
  (97 ≤ n && n ≤ 122) || (65 ≤ n && n ≤ 90)

/-- The image-reference class `[\w-\/:]` of the source's FROM pattern. -/
def codeImageChar (c : Char) : Bool :=
  isWordChar c || c == '-' || c == '/' || c == ':'

/-- The image-reference class of the spec's FROM pattern: word characters,
hyphen, slash, colon, dot. -/
def specImageChar (c : Char) : Bool :=
  codeImageChar c || c == '.'

/-- The alias-tail class `[a-z0-9-_\\.]` (under `i`) of the source's pattern:
letters, digits, hyphen, underscore, backslash, dot. -/
def codeAliasChar (c : Char) : Bool :=
  isAsciiLetter c || (48 ≤ c.toNat && c.toNat ≤ 57) ||
  c == '-' || c == '_' || c == '\\' || c == '.'

/-- The alias-tail class `[\w.\-]` of the spec's pattern. -/
def specAliasChar (c : Char) : Bool :=
  isWordChar c || c == '.' || c == '-'

/-- Single literal character. -/
def chr (c : Char) : RE := .cls (fun x => x == c)

/-- Case-insensitive literal character. -/
def chrCI (c : Char) : RE := .cls (fun x => x == c.toLower || x == c.toUpper)

/-- Case-insensitive literal word. -/
def litCI (s : String) : RE := s.data.foldr (fun c r => .cat (chrCI c) r) .eps

/-- `[p]+` as `[p][p]*`. -/
def plusCls (p : Char → Bool) : RE := .cat (.cls p) (.starCls p)

/-- The source's `FROM_DIRECTIVE_PATTERN`:
`^\s*FROM\s*([\w-\/:]*)(\s*AS\s*[a-z][a-z0-9-_\\.]*)?$` with the `i` flag. -/
def FROM_DIRECTIVE_PATTERN : RE :=
  .cat (.starCls isJsSpace) (.cat (litCI "FROM") (.cat (.starCls isJsSpace)
    (.cat (.starCls codeImageChar)
      (.opt (.cat (.starCls isJsSpace) (.cat (litCI "AS") (.cat (.starCls isJsSpace)
        (.cat (.cls isAsciiLetter) (.starCls codeAliasChar)))))))))

/-- Whether a line is recognized by the source's FROM-directive pattern. -/
def fromDirectiveMatch (line : String) : Bool := reFull FROM_DIRECTIVE_PATTERN line

/-- The spec's stage-alias pattern, case-insensitive:
`^\s*FROM\s+([\w/:.-]+)(\s+AS\s+[a-zA-Z][\w.-]*)?\s*$`
(written in the spec with escaped hyphens inside the classes). -/
def specFromPattern : RE :=
  .cat (.starCls isJsSpace) (.cat (litCI "FROM") (.cat (plusCls isJsSpace)
    (.cat (plusCls specImageChar)
      (.cat (.opt (.cat (plusCls isJsSpace) (.cat (litCI "AS") (.cat (plusCls isJsSpace)
        (.cat (.cls isAsciiLetter) (.starCls specAliasChar))))))
        (.starCls isJsSpace)))))

/-- Whether a line matches the spec's stage-alias pattern. -/
def specFromMatch (line : String) : Bool := reFull specFromPattern line

/-! ## Glob patterns for file classification -/

/-- The source's compose-file glob (`COMPOSE_FILE_GLOB_PATTERN`). -/
def COMPOSE_FILE_GLOB_PATTERN : String := "**/[dD]ocker-[cC]ompose*.{yaml,yml}"

/-- The source's Dockerfile glob (`DOCKERFILE_GLOB_PATTERN`). -/
def DOCKERFILE_GLOB_PATTERN : String := "**/{*.dockerfile,[dD]ocker[fF]ile}"

/-- Split a brace-group body at commas. -/
def splitComma : List Char → List (List Char)
  | [] => [[]]
  | ',' :: rest => [] :: splitComma rest
  | c :: rest =>
    match splitComma rest with
    | [] => [[c]]
    | g :: gs => (c :: g) :: gs

/-- Scan up to the closing `}` of a brace group, returning body and suffix. -/
def spanClose (acc : List Char) : List Char → Option (List Char × List Char)
  | [] => none
  | '}' :: rest => some (acc, rest)
  | c :: rest => spanClose (acc ++ [c]) rest

/-- Locate the first `{...}` group: prefix before it, body, and suffix. -/
def splitBrace (acc : List Char) : List Char → Option (List Char × List Char × List Char)
  | [] => none
  | '{' :: rest =>
    match spanClose [] rest with
    | some (body, suffixRest) => some (acc, body, suffixRest)
    | none => none
  | c :: rest => splitBrace (acc ++ [c]) rest

/-- Expand a (single-level) brace group into its alternative patterns. -/
def expandBraces (pat : List Char) : List (List Char) :=
  match splitBrace [] pat with
  | none => [pat]
  | some (pre, body, post) => (splitComma body).map (fun alt => pre ++ alt ++ post)

/-- Tokens of a brace-free glob pattern. -/
inductive GlobTok where
  | anyDirs
  | anyRun
  | oneOf (cs : List Char)
  | lit (c : Char)

/-- Tokenize a brace-free glob pattern; the first argument is `some acc`
while scanning inside a `[...]` character set, `none` otherwise. -/
def globToks : Option (List Char) → List Char → List GlobTok
  | some _, [] => []
  | some acc, ']' :: rest => .oneOf acc :: globToks none rest
  | some acc, c :: rest => globToks (some (acc ++ [c])) rest
  | none, [] => []
  | none, '*' :: '*' :: '/' :: rest => .anyDirs :: globToks none rest
  | none, '*' :: rest => .anyRun :: globToks none rest
  | none, '[' :: rest => globToks (some []) rest
  | none, c :: rest => .lit c :: globToks none rest

/-- Compile glob tokens: `**​/` matches zero or more whole path segments,
`*` any run of non-separator characters, `[...]` a character set, a literal
itself. -/
def globReOfToks : List GlobTok → RE
  | [] => .eps
  | .anyDirs :: rest =>
    .cat (.opt (.cat (.starCls (fun _ => true)) (.cls (fun c => c == '/')))) (globReOfToks rest)
  | .anyRun :: rest => .cat (.starCls (fun c => !(c == '/'))) (globReOfToks rest)
  | .oneOf cs :: rest => .cat (.cls (fun c => cs.contains c)) (globReOfToks rest)
  | .lit c :: rest => .cat (.cls (fun x => x == c)) (globReOfToks rest)

/-- Compile a brace-free glob pattern to a regular expression. -/
def globCompile1 (p : List Char) : RE := globReOfToks (globToks none p)

/-- Whether a path matches a glob pattern (brace expansion, then the
compiled alternatives, anchored over the whole path). -/
def globMatch (pat path : String) : Bool :=
  (expandBraces pat.data).any (fun p => reFullL (globCompile1 p) path.data)

/-! ## Compose structural parser

The compose parser, position resolver and providers live in repository files
that are not part of the available sources (only their call sites are);
they are modelled from the spec below. -/

/-- Value kind of a parsed Compose line. -/
inductive ValueKind where
  | mapping
  | scalar
  | sequence
deriving DecidableEq, Repr

/-- Modelled from the spec: one parsed key of a Compose document, held in an
arena addressed by index; `parent` is a back-reference index, `children` the
ordered child indices. -/
structure KeyNode where
  keyPath : List String
  keyText : String
  kind : ValueKind
  indentLevel : Nat
  lineNumber : Nat
  colStart : Nat
  colEnd : Nat
  parent : Nat
  children : List Nat
deriving DecidableEq, Repr

/-- The synthetic root sentinel (empty keyPath, arena index 0). -/
def rootNode : KeyNode :=
  { keyPath := [], keyText := "", kind := .mapping, indentLevel := 0,
    lineNumber := 0, colStart := 0, colEnd := 0, parent := 0, children := [] }

/-- Modelled from the spec: the result of a Compose parse — the arena of
KeyNodes, index 0 being the synthetic root. -/
structure ParseResult where
  nodes : List KeyNode
deriving DecidableEq, Repr

/-- Intermediate parser state: arena plus the stack of open node indices
(top first). -/
structure PState where
  nodes : List KeyNode
  stack : List Nat

/-- Drop trailing spaces of a key token. -/
def trimKeyEnd (l : List Char) : List Char :=
  (l.reverse.dropWhile (fun c => c == ' ')).reverse

/-- Modelled from the spec: classify a non-blank, non-comment line body as a
mapping-key line (`key:` or `key: value`), a sequence-item line (leading
`-`), or unrecognized (`none`). Returns key text, value kind, and the key
span length. -/
def classifyContent (content : List Char) : Option (String × ValueKind × Nat) :=
  match content with
  | '-' :: rest =>
    let body := rest.dropWhile (fun c => c == ' ')
    let key := body.takeWhile (fun c => !(c == ':'))
    some (String.mk (trimKeyEnd key), .sequence, content.length)
  | _ =>
    if content.contains ':' then
      let key := content.takeWhile (fun c => !(c == ':'))
      let afterColon := (content.dropWhile (fun c => !(c == ':'))).drop 1
      let value := afterColon.dropWhile isJsSpace
      if key.isEmpty then none
      else
        some (String.mk (trimKeyEnd key),
              if value.isEmpty then ValueKind.mapping else ValueKind.scalar,
              (trimKeyEnd key).length)
    else none

/-- Pop all open nodes whose indent level is at least the new line's indent. -/
def popStack (nodes : List KeyNode) : List Nat → Nat → List Nat
  | [], _ => []
  | i :: rest, indent =>
    if indent ≤ (nodes.getD i rootNode).indentLevel then popStack nodes rest indent
    else i :: rest

/-- Append a child index to the node at the given arena index. -/
def addChild : List KeyNode → Nat → Nat → List KeyNode
  | [], _, _ => []
  | nd :: rest, 0, c => { nd with children := nd.children ++ [c] } :: rest
  | nd :: rest, p + 1, c => nd :: addChild rest p c

/-- What a raw line contributes: `none` to skip it (blank, comment,
tab-indented or unrecognized), or its indent together with its
classification. -/
def lineEvent (l : List Char) : Option (Nat × String × ValueKind × Nat) :=
  let ws := l.takeWhile (fun c => c == ' ' || c == '\t')
  if ws.contains '\t' then none
  else
    let indent := ws.length
    let content := l.drop indent
    match content with
    | [] => none
    | c :: _ =>
      if c == '#' then none
      else (classifyContent content).map (fun r => (indent, r))

/-- Pop the stack down to the enclosing parent, attach a fresh KeyNode to
it, and push the new node. -/
def insertNode (st : PState) (lineNum indent : Nat) (key : String)
    (kind : ValueKind) (spanLen : Nat) : PState :=
  let stack1 := popStack st.nodes st.stack indent
  let parentIdx := stack1.headD 0
  let parentNode := st.nodes.getD parentIdx rootNode
  let newIdx := st.nodes.length
  let node : KeyNode :=
    { keyPath := parentNode.keyPath ++ [key], keyText := key,
      kind := kind, indentLevel := indent, lineNumber := lineNum,
      colStart := indent, colEnd := indent + spanLen,
      parent := parentIdx, children := [] }
  { nodes := addChild st.nodes parentIdx newIdx ++ [node],
    stack := newIdx :: stack1 }

/-- Modelled from the spec: process one raw line — skip blank, comment,
tab-indented and unrecognized lines; otherwise insert the new node. -/
def processLine (st : PState) (lineNum : Nat) (l : List Char) : PState :=
  match lineEvent l with
  | none => st
  | some (indent, key, kind, spanLen) => insertNode st lineNum indent key kind spanLen

/-- Split a character stream at newline characters. -/
def splitLines : List Char → List (List Char)
  | [] => [[]]
  | '\n' :: rest => [] :: splitLines rest
  | c :: rest =>
    match splitLines rest with
    | [] => [[c]]
    | l :: ls => (c :: l) :: ls

/-- Modelled from the spec: `parse(text) -> ParseResult` — line-by-line
indentation-driven tree recovery; total, never fails. -/
def parseCompose (text : String) : ParseResult :=
  let lines := splitLines text.data
  let st := lines.enum.foldl (fun st p => processLine st p.1 p.2)
    { nodes := [rootNode], stack := [] }
  { nodes := st.nodes }

/-! ## Position resolver -/

/-- Whether a node starts at or before the given (line, column), in the
(lineNumber, colStart) lexicographic order of the flat offset index. -/
def atOrBefore (line col : Nat) (nd : KeyNode) : Bool :=
  decide (nd.lineNumber < line) ||
  (decide (nd.lineNumber = line) && decide (nd.colStart ≤ col))

/-- Index of the last non-root node at or before the position (0 if none):
the binary search over the flat offset index, modelled as a scan since the
arena is already in (lineNumber, colStart) order. -/
def lastHit (line col : Nat) : List KeyNode → Nat → Nat → Nat
  | [], _, best => best
  | nd :: rest, i, best =>
    lastHit line col rest (i + 1)
      (if !(i == 0) && atOrBefore line col nd then i else best)

/-- The raw candidate index for a position. -/
def candidateIdx (pr : ParseResult) (line col : Nat) : Nat :=
  lastHit line col pr.nodes 0 0

/-- Walk up parent links while the position is at or left of the node's
indentation (and not on the node's own line): the innermost node whose span
contains the position. Fuel-bounded so it is total on any arena. -/
def climb (pr : ParseResult) (line col : Nat) : Nat → Nat → Nat
  | 0, i => i
  | fuel + 1, i =>
    if i == 0 then 0
    else
      let nd := pr.nodes.getD i rootNode
      if nd.lineNumber == line then i
      else if col ≤ nd.indentLevel then climb pr line col fuel nd.parent
      else i

/-- Modelled from the spec: `resolve(ParseResult, line, column)` — the
innermost enclosing node's arena index; 0 (the root sentinel) if the
document is empty or the position precedes all content. -/
def resolve (pr : ParseResult) (line col : Nat) : Nat :=
  climb pr line col pr.nodes.length (candidateIdx pr line col)

/-! ## Schema registry and providers -/

/-- The source's `KeyInfo`: a map from key name to description, kept as an
association list so registry declaration order is preserved. -/
abbrev KeyInfo := List (String × String)

/-- The source's `ComposeVersionKeys`: the three schema variants. -/
structure ComposeVersionKeys where
  All : KeyInfo
  v1 : KeyInfo
  v2 : KeyInfo

/-- The closed variant enum of the spec's schema registry. -/
inductive ComposeVariant where
  | all
  | v1
  | v2
deriving DecidableEq, Repr

/-- The key info table of a variant. -/
def variantMap (keys : ComposeVersionKeys) : ComposeVariant → KeyInfo
  | .all => keys.All
  | .v1 => keys.v1
  | .v2 => keys.v2

/-- First-match lookup in a key info table. -/
def assocLookup (ki : KeyInfo) (name : String) : Option String :=
  match ki with
  | [] => none
  | (k, d) :: rest => if k == name then some d else assocLookup rest name

/-- Modelled from the spec: the contents of the compose key registry
(`dockerComposeKeyInfo`, not among the available sources) — three preloaded
variants; `all` is the superset, v1 lacks `version`/`services`, and `links`
has no v2-specific entry. Descriptions are abbreviated. -/
def composeVersionKeys : ComposeVersionKeys :=
  { All :=
      [("version", "Compose file format version"),
       ("services", "The services of the application"),
       ("build", "Build configuration"),
       ("ports", "Ports exposed by the service"),
       ("image", "The image to start the container from"),
       ("context", "Path to the build context"),
       ("volumes", "Paths mounted into the container"),
       ("environment", "Environment variables"),
       ("links", "Link to containers in another service")],
    v1 :=
      [("build", "Build configuration"),
       ("ports", "Ports exposed by the service"),
       ("image", "The image to start the container from"),
       ("volumes", "Paths mounted into the container"),
       ("environment", "Environment variables"),
       ("links", "Link to containers in another service")],
    v2 :=
      [("version", "Compose file format version"),
       ("services", "The services of the application"),
       ("build", "Build configuration"),
       ("ports", "Ports exposed by the service"),
       ("image", "The image to start the container from"),
       ("context", "Path to the build context"),
       ("volumes", "Paths mounted into the container"),
       ("environment", "Environment variables")] }

/-- Modelled from the spec: schema lookup for a key name — the exact
declared variant is preferred, with fallback to the `all` variant when no
variant-specific entry exists. -/
def lookupDescription (keys : ComposeVersionKeys) (variant : ComposeVariant)
    (name : String) : Option String :=
  match assocLookup (variantMap keys variant) name with
  | some d => some d
  | none => assocLookup keys.All name

/-- Modelled from the spec: `hover(text, line, column, variant)` — resolve
the enclosing node and return the registry description of the key under the
cursor; no result (not an error) when the cursor is over a value, over
unrecognized text, or on the root sentinel. -/
def hover (text : String) (line col : Nat) (variant : ComposeVariant) :
    Option String :=
  let pr := parseCompose text
  let i := resolve pr line col
  if i == 0 then none
  else
    let nd := pr.nodes.getD i rootNode
    if nd.lineNumber == line && (decide (nd.colStart ≤ col) && decide (col ≤ nd.colEnd)) then
      lookupDescription composeVersionKeys variant nd.keyText
    else none

/-- A completion candidate: label and documentation (the insertion kind of
the spec carries no information used by the claims). -/
structure CompletionItem where
  label : String
  documentation : String
deriving DecidableEq, Repr

/-- The labels of the sibling keys already present under the node at arena
index `i`: its children's key texts, in insertion order. -/
def siblingLabels (pr : ParseResult) (i : Nat) : List String :=
  ((pr.nodes.getD i rootNode).children).map
    (fun c => (pr.nodes.getD c rootNode).keyText)

/-- Modelled from the spec: `complete(text, line, column, variant)` —
resolve the enclosing node, collect the sibling key labels already present
at that level, and return the registry candidates of the variant in
declaration order with the already-used labels subtracted. -/
def complete (text : String) (line col : Nat) (variant : ComposeVariant) :
    List CompletionItem :=
  let pr := parseCompose text
  let i := resolve pr line col
  let used := siblingLabels pr i
  ((variantMap composeVersionKeys variant).filter
      (fun e => !used.contains e.1)).map
    (fun e => { label := e.1, documentation := e.2 })

/-! ## Image quick-pick item computation (`computeItems`) -/

/-- The fields of `Docker.ImageDesc` the computation reads: `RepoTags` is
absent (`none`) for dangling images. -/
structure ImageDesc where
  RepoTags : Option (List String)
deriving DecidableEq, Repr

/-- A quick-pick entry; the synthetic `All Images` entry has no image. -/
structure ImageItem where
  label : String
  imageDesc : Option ImageDesc
deriving DecidableEq, Repr

/-- `createItem` from the source: the label is the repo tag, or `<none>`
when the tag is falsy (the empty string). -/
def createItem (image : ImageDesc) (repoTag : String) : ImageItem :=
  { label := if repoTag == "" then "<none>" else repoTag,
    imageDesc := some image }

/-- The synthetic `All Images` entry prepended by `unshift`. -/
def allImagesItem : ImageItem := { label := "All Images", imageDesc := none }

/-- The two nested loops of `computeItems`, pushing one item per repo tag
(or one `<none>:<none>` item for an image without `RepoTags`) onto `items`. -/
def computeItemsLoop : List ImageDesc → List ImageItem → List ImageItem
  | [], items => items
  | img :: rest, items =>
    let items2 :=
      match img.RepoTags with
      | none => items ++ [createItem img "<none>:<none>"]
      | some tags => tags.foldl (fun acc t => acc ++ [createItem img t]) items
    computeItemsLoop rest items2

/-- `computeItems` from the source: the per-image items, with the
`All Images` entry unshifted when `includeAll` is set and the input is
non-empty. -/
def computeItems (images : List ImageDesc) (includeAll : Bool) : List ImageItem :=
  let items := computeItemsLoop images []
  if includeAll && decide (0 < images.length) then allImagesItem :: items
  else items

/-! ## Dockerfile FROM-line records -/

/-- The FROM-line fields of the spec's DirectiveRecord used by the claims. -/
structure DirectiveRecord where
  instruction : String
  baseImage : String
  stageAlias : Option String
deriving DecidableEq, Repr

/-- Modelled from the spec: the Dockerfile parser's FROM-line handling (the
parser itself is not among the available sources) — a line matching the
source's `FROM_DIRECTIVE_PATTERN` yields a record with the upper-cased
keyword, the base image reference, and the alias when present. -/
def parseFromLine (line : String) : Option DirectiveRecord :=
  if fromDirectiveMatch line then
    let afterKw := (line.data.dropWhile isJsSpace).drop 4
    let r1 := afterKw.dropWhile isJsSpace
    let image := r1.takeWhile codeImageChar
    let rest := r1.dropWhile codeImageChar
    if rest.isEmpty then
      some { instruction := "FROM", baseImage := String.mk image, stageAlias := none }
    else
      let afterAS := (rest.dropWhile isJsSpace).drop 2
      let aliasTxt := afterAS.dropWhile isJsSpace
      some { instruction := "FROM", baseImage := String.mk image,
             stageAlias := some (String.mk aliasTxt) }
  else none

/-- Structural (deep) equality of parse results. -/
def structEq (a b : ParseResult) : Bool := decide (a = b)

/-- The items contributed by a single image: one per repo tag, or a single
`<none>:<none>` item when `RepoTags` is absent. -/
def perImageItems (img : ImageDesc) : List ImageItem :=
  match img.RepoTags with
  | none => [createItem img "<none>:<none>"]
  | some tags => tags.map (createItem img)

/-- The item count contributed by a single image: its number of repo tags,
or 1 when `RepoTags` is absent. -/
def imageItemCount (img : ImageDesc) : Nat :=
  match img.RepoTags with
  | none => 1
  | some tags => tags.length

/-! ## Well-formedness of the parser arena -/

/-- Well-formedness of an arena: non-empty, root sentinel with empty
keyPath at index 0, all parent indices in range and strictly decreasing,
all child indices in range. -/
def NodesOk (nodes : List KeyNode) : Prop :=
  0 < nodes.length ∧
  (nodes.getD 0 rootNode).keyPath = [] ∧
  ∀ i, i < nodes.length →
    (nodes.getD i rootNode).parent < nodes.length ∧
    (0 < i → (nodes.getD i rootNode).parent < i) ∧
    ∀ x ∈ (nodes.getD i rootNode).children, x < nodes.length

/-- Well-formedness of the full parser state: arena plus in-range stack. -/
def StateOk (st : PState) : Prop :=
  NodesOk st.nodes ∧ ∀ j ∈ st.stack, j < st.nodes.length

/-- The executable well-formedness check on a parse result. -/
def wellFormedB (pr : ParseResult) : Bool :=
  decide (0 < pr.nodes.length) &&
  (decide ((pr.nodes.getD 0 rootNode).keyPath = []) &&
  (List.range pr.nodes.length).all (fun i =>
    decide ((pr.nodes.getD i rootNode).parent < pr.nodes.length) &&
    ((decide (i = 0) || decide ((pr.nodes.getD i rootNode).parent < i)) &&
    (pr.nodes.getD i rootNode).children.all
      (fun x => decide (x < pr.nodes.length)))))

/-! ## Concrete evaluations of the embedded definitions -/

example : fromDirectiveMatch "FROM node:14 AS builder" = true := by decide

example : fromDirectiveMatch "FROM node:14" = true := by decide

example : fromDirectiveMatch "FROM ubuntu:18.04" = false := by decide

example : specFromMatch "FROM ubuntu:18.04" = true := by decide

example : fromDirectiveMatch "FROMubuntu" = true := by decide

example : specFromMatch "FROMubuntu" = false := by decide

example : globMatch COMPOSE_FILE_GLOB_PATTERN "project/docker-compose.yml" = true := by decide

example : globMatch COMPOSE_FILE_GLOB_PATTERN "Docker-Compose.debug.yaml" = true := by decide

example : globMatch COMPOSE_FILE_GLOB_PATTERN "project/Dockerfile" = false := by decide

example : globMatch DOCKERFILE_GLOB_PATTERN "a/DockerFile" = true := by decide

example : globMatch DOCKERFILE_GLOB_PATTERN "a/dockerFile" = true := by decide

example : globMatch DOCKERFILE_GLOB_PATTERN "a/DOCKERFILE" = false := by decide

example : globMatch DOCKERFILE_GLOB_PATTERN "a/app.dockerfile" = true := by decide

example : globMatch "**/{*.dockerfile,[dD]ockerfile}" "a/DockerFile" = false := by decide

example : (parseCompose "services:\n  web:\n    image: x\n").nodes.length = 4 := by decide

example : ((parseCompose "services:\n  web:\n    image: x\n").nodes.getD 3 rootNode).keyText
    = "image" := by decide

example : ((parseCompose "services:\n  web:\n    image: x\n").nodes.getD 2 rootNode).children
    = [3] := by decide

example : ((parseCompose "services:\n  web:\n    image: x\n").nodes.getD 3 rootNode).keyPath
    = ["services", "web", "image"] := by decide

example : resolve (parseCompose "services:\n  web:\n    image: x\n") 3 4 = 2 := by decide

example : resolve (parseCompose "services:\n  web:\n    image: x\n") 2 5 = 3 := by decide

example : resolve (parseCompose "") 0 0 = 0 := by decide

example : ((complete "services:\n  web:\n    image: x\n" 3 4 .v2).map
    (fun it => it.label)).contains "image" = false := by decide

example : ((complete "services:\n  web:\n    image: x\n" 3 4 .v2).map
    (fun it => it.label)) =
    ["version", "services", "build", "ports", "context", "volumes", "environment"] := by decide

example : hover "services:\n  web:\n    image: x\n" 2 5 .v2 =
    some "The image to start the container from" := by decide

example : hover "services:\n  web:\n    image: x\n" 2 11 .v2 = none := by decide

example : lookupDescription composeVersionKeys .v2 "links" =
    some "Link to containers in another service" := by decide

example : computeItems [⟨some ["a:1", "a:2"]⟩, ⟨none⟩] true =
    [allImagesItem,
     createItem ⟨some ["a:1", "a:2"]⟩ "a:1",
     createItem ⟨some ["a:1", "a:2"]⟩ "a:2",
     createItem ⟨none⟩ "<none>:<none>"] := by decide

example : computeItems [] true = [] := by decide

lemma addChild_length (ns : List KeyNode) (p c : Nat) :
    (addChild ns p c).length = ns.length := by
  induction ns generalizing p with
  | nil => rfl
  | cons nd rest ih =>
    cases p with
    | zero => simp [addChild]
    | succ q => simp [addChild, ih]

lemma addChild_getD_parent (ns : List KeyNode) (p c i : Nat) (d : KeyNode) :
    ((addChild ns p c).getD i d).parent = (ns.getD i d).parent := by
  induction ns generalizing p i with
  | nil => rfl
  | cons nd rest ih =>
    cases p with
    | zero =>
      cases i with
      | zero => simp [addChild]
      | succ j => simp [addChild]
    | succ q =>
      cases i with
      | zero => simp [addChild]
      | succ j => simp only [addChild, List.getD_cons_succ]; exact ih q j

lemma addChild_getD_keyPath (ns : List KeyNode) (p c i : Nat) (d : KeyNode) :
    ((addChild ns p c).getD i d).keyPath = (ns.getD i d).keyPath := by
  induction ns generalizing p i with
  | nil => rfl
  | cons nd rest ih =>
    cases p with
    | zero =>
      cases i with
      | zero => simp [addChild]
      | succ j => simp [addChild]
    | succ q =>
      cases i with
      | zero => simp [addChild]
      | succ j => simp only [addChild, List.getD_cons_succ]; exact ih q j

lemma addChild_children_subset (ns : List KeyNode) (p c i : Nat) (d : KeyNode)
    (x : Nat) (hx : x ∈ ((addChild ns p c).getD i d).children) :
    x ∈ (ns.getD i d).children ∨ x = c := by
  induction ns generalizing p i with
  | nil => exact Or.inl hx
  | cons nd rest ih =>
    cases p with
    | zero =>
      cases i with
      | zero =>
        simp only [addChild, List.getD_cons_zero] at hx ⊢
        rcases List.mem_append.mp hx with h | h
        · exact Or.inl h
        · exact Or.inr (List.mem_singleton.mp h)
      | succ j =>
        simp only [addChild, List.getD_cons_succ] at hx ⊢
        exact Or.inl hx
    | succ q =>
      cases i with
      | zero =>
        simp only [addChild, List.getD_cons_zero] at hx ⊢
        exact Or.inl hx
      | succ j =>
        simp only [addChild, List.getD_cons_succ] at hx ⊢
        exact ih q j hx

lemma popStack_mem (nodes : List KeyNode) (stack : List Nat) (indent : Nat) :
    ∀ j ∈ popStack nodes stack indent, j ∈ stack := by
  induction stack with
  | nil => intro j hj; exact hj
  | cons i rest ih =>
    intro j hj
    simp only [popStack] at hj
    split at hj
    · exact List.mem_cons_of_mem _ (ih j hj)
    · exact hj

lemma insertNode_ok (st : PState) (lineNum indent : Nat) (key : String)
    (kind : ValueKind) (spanLen : Nat) (h : StateOk st) :
    StateOk (insertNode st lineNum indent key kind spanLen) := by
  obtain ⟨⟨hlen, hroot, hnodes⟩, hstack⟩ := h
  have hsub : ∀ j ∈ popStack st.nodes st.stack indent, j < st.nodes.length :=
    fun j hj => hstack j (popStack_mem _ _ _ j hj)
  have hp : (popStack st.nodes st.stack indent).headD 0 < st.nodes.length := by
    cases hps : popStack st.nodes st.stack indent with
    | nil => simpa using hlen
    | cons j rest =>
      have hj : j ∈ popStack st.nodes st.stack indent := by
        rw [hps]; exact List.mem_cons_self _ _
      simpa [hps] using hsub j hj
  simp only [insertNode]
  refine ⟨⟨?_, ?_, ?_⟩, ?_⟩
  · -- non-empty
    simp [addChild_length]
  · -- root keyPath
    rw [List.getD_append _ _ _ _ (by simp [addChild_length]; omega),
      addChild_getD_keyPath]
    exact hroot
  · -- per-node bounds
    intro i hi
    have hilen : i < st.nodes.length + 1 := by
      simpa [addChild_length] using hi
    rcases Nat.lt_or_ge i st.nodes.length with hlt | hge
    · rw [List.getD_append _ _ _ _ (by simp [addChild_length]; omega)]
      obtain ⟨h1, h2, h3⟩ := hnodes i hlt
      refine ⟨?_, ?_, ?_⟩
      · rw [addChild_getD_parent]
        simp only [List.length_append, addChild_length, List.length_singleton]
        omega
      · intro hpos
        rw [addChild_getD_parent]
        exact h2 hpos
      · intro x hx
        rcases addChild_children_subset _ _ _ _ _ x hx with hmem | hnew
        · have := h3 x hmem
          simp only [List.length_append, addChild_length, List.length_singleton]
          omega
        · subst hnew
          simp only [List.length_append, addChild_length, List.length_singleton]
          omega
    · -- i is the fresh node
      have hieq : i = st.nodes.length := by omega
      subst hieq
      rw [List.getD_append_right _ _ _ _ (by simp [addChild_length])]
      simp only [addChild_length, Nat.sub_self, List.getD_cons_zero]
      refine ⟨?_, ?_, ?_⟩
      · simp only [List.length_append, addChild_length, List.length_singleton]
        omega
      · intro _
        exact hp
      · intro x hx
        simp at hx
  · -- stack bounds
    intro j hj
    simp only [List.length_append, addChild_length, List.length_singleton]
    rcases List.mem_cons.mp hj with hj0 | hjm
    · omega
    · have := hsub j hjm
      omega

lemma processLine_ok (st : PState) (lineNum : Nat) (l : List Char)
    (h : StateOk st) : StateOk (processLine st lineNum l) := by
  unfold processLine
  cases he : lineEvent l with
  | none => exact h
  | some r =>
    obtain ⟨indent, key, kind, spanLen⟩ := r
    exact insertNode_ok st lineNum indent key kind spanLen h

lemma foldl_process_ok (lines : List (Nat × List Char)) (st : PState)
    (h : StateOk st) :
    StateOk (lines.foldl (fun st p => processLine st p.1 p.2) st) := by
  induction lines generalizing st with
  | nil => exact h
  | cons p rest ih => exact ih _ (processLine_ok _ _ _ h)

lemma init_state_ok : StateOk { nodes := [rootNode], stack := [] } := by
  refine ⟨⟨by simp, rfl, ?_⟩, ?_⟩
  · intro i hi
    simp only [List.length_singleton] at hi
    interval_cases i
    refine ⟨by simp [rootNode], ?_, ?_⟩
    · intro hpos
      exact absurd hpos (Nat.lt_irrefl 0)
    · intro x hx
      simp [rootNode] at hx
  · intro j hj
    simp at hj

lemma parseCompose_ok (text : String) : NodesOk (parseCompose text).nodes := by
  have h := foldl_process_ok (splitLines text.data).enum
    { nodes := [rootNode], stack := [] } init_state_ok
  exact h.1

/-! ## Resolver lemmas -/

lemma climb_zero (pr : ParseResult) (line col fuel : Nat) :
    climb pr line col fuel 0 = 0 := by
  cases fuel <;> simp [climb]

lemma climb_lt (pr : ParseResult) (line col : Nat)
    (hlen : 0 < pr.nodes.length)
    (hw : ∀ j, j < pr.nodes.length →
      (pr.nodes.getD j rootNode).parent < pr.nodes.length) :
    ∀ fuel i, i < pr.nodes.length →
      climb pr line col fuel i < pr.nodes.length := by
  intro fuel
  induction fuel with
  | zero => intro i hi; exact hi
  | succ f ih =>
    intro i hi
    simp only [climb]
    split
    · exact hlen
    · split
      · exact hi
      · split
        · exact ih _ (hw i hi)
        · exact hi

lemma lastHit_range (line col : Nat) :
    ∀ (l : List KeyNode) (i best : Nat),
      lastHit line col l i best = best ∨
      (i ≤ lastHit line col l i best ∧
        lastHit line col l i best < i + l.length) := by
  intro l
  induction l with
  | nil => intro i best; left; rfl
  | cons nd rest ih =>
    intro i best
    simp only [lastHit]
    rcases ih (i + 1) (if !(i == 0) && atOrBefore line col nd then i else best)
      with h | ⟨h1, h2⟩
    · rw [h]
      split
      · right
        constructor
        · omega
        · simp only [List.length_cons]; omega
      · left; rfl
    · right
      refine ⟨by omega, ?_⟩
      simp only [List.length_cons]; omega

lemma lastHit_all_false (line col : Nat) :
    ∀ (l : List KeyNode) (i best : Nat),
      (∀ nd ∈ l, atOrBefore line col nd = false) →
      lastHit line col l i best = best := by
  intro l
  induction l with
  | nil => intro i best _; rfl
  | cons nd rest ih =>
    intro i best h
    have hh : atOrBefore line col nd = false := h nd (List.mem_cons_self _ _)
    simp only [lastHit, hh, Bool.and_false]
    rw [if_neg (by simp)]
    exact ih _ _ (fun x hx => h x (List.mem_cons_of_mem _ hx))

/-! ## Regular-expression membership lemmas -/

lemma mem_reMatches_eps (s : List Char) : s ∈ reMatches .eps s := by
  simp [reMatches]

lemma mem_reMatches_cls {p : Char → Bool} {c : Char} (h : p c = true)
    (s : List Char) : s ∈ reMatches (.cls p) (c :: s) := by
  simp [reMatches, h]

lemma mem_reMatches_cat {a b : RE} {s s2 s3 : List Char}
    (h1 : s2 ∈ reMatches a s) (h2 : s3 ∈ reMatches b s2) :
    s3 ∈ reMatches (.cat a b) s := by
  simp only [reMatches, List.mem_flatMap]
  exact ⟨s2, h1, h2⟩

lemma mem_reMatches_opt_skip (r : RE) (s : List Char) :
    s ∈ reMatches (.opt r) s := by
  simp [reMatches]

lemma mem_reMatches_opt_take {r : RE} {s s2 : List Char}
    (h : s2 ∈ reMatches r s) : s2 ∈ reMatches (.opt r) s := by
  simp only [reMatches, List.mem_append]
  exact Or.inl h

lemma mem_starMatches_self (p : Char → Bool) (s : List Char) :
    s ∈ starMatches p s := by
  cases s <;> simp [starMatches]

lemma mem_starMatches_skip (p : Char → Bool) (l : List Char)
    (h : l.all p = true) (r : List Char) : r ∈ starMatches p (l ++ r) := by
  induction l with
  | nil => simpa using mem_starMatches_self p r
  | cons c cs ih =>
    have hc : p c = true := by
      simp only [List.all_cons, Bool.and_eq_true] at h
      exact h.1
    have hcs : cs.all p = true := by
      simp only [List.all_cons, Bool.and_eq_true] at h
      exact h.2
    have hst : starMatches p (c :: (cs ++ r)) =
        (c :: (cs ++ r)) :: starMatches p (cs ++ r) := by
      simp [starMatches, hc]
    rw [List.cons_append, hst]
    exact List.mem_cons_of_mem _ (ih hcs)

lemma mem_reMatches_starCls (p : Char → Bool) (l : List Char)
    (h : l.all p = true) (r : List Char) :
    r ∈ reMatches (.starCls p) (l ++ r) :=
  mem_starMatches_skip p l h r

lemma mem_reMatches_starCls_self (p : Char → Bool) (s : List Char) :
    s ∈ reMatches (.starCls p) s :=
  mem_starMatches_self p s

lemma reFull_of_mem {r : RE} {s : String} (h : [] ∈ reMatches r s.data) :
    reFull r s = true := by
  simp only [reFull, reFullL, decide_eq_true_eq]
  exact h

lemma strData_append (a b : String) : (a ++ b).data = a.data ++ b.data := rfl

lemma mem_litFROM (s : List Char) :
    s ∈ reMatches (litCI "FROM") ('F' :: 'R' :: 'O' :: 'M' :: s) := by
  show s ∈ reMatches (.cat (chrCI 'F') (.cat (chrCI 'R')
    (.cat (chrCI 'O') (.cat (chrCI 'M') .eps)))) ('F' :: 'R' :: 'O' :: 'M' :: s)
  exact mem_reMatches_cat (mem_reMatches_cls (by decide) _)
    (mem_reMatches_cat (mem_reMatches_cls (by decide) _)
      (mem_reMatches_cat (mem_reMatches_cls (by decide) _)
        (mem_reMatches_cat (mem_reMatches_cls (by decide) _)
          (mem_reMatches_eps s))))

lemma mem_litAS (s : List Char) :
    s ∈ reMatches (litCI "AS") ('A' :: 'S' :: s) := by
  show s ∈ reMatches (.cat (chrCI 'A') (.cat (chrCI 'S') .eps))
    ('A' :: 'S' :: s)
  exact mem_reMatches_cat (mem_reMatches_cls (by decide) _)
    (mem_reMatches_cat (mem_reMatches_cls (by decide) _)
      (mem_reMatches_eps s))

/-! ## computeItems lemmas -/

lemma foldl_push (img : ImageDesc) (tags : List String) :
    ∀ acc, tags.foldl (fun a t => a ++ [createItem img t]) acc =
      acc ++ tags.map (createItem img) := by
  induction tags with
  | nil => intro acc; simp
  | cons t ts ih =>
    intro acc
    simp only [List.foldl_cons, List.map_cons, ih]
    simp

lemma computeItemsLoop_eq (images : List ImageDesc) :
    ∀ acc, computeItemsLoop images acc = acc ++ images.flatMap perImageItems := by
  induction images with
  | nil => intro acc; simp [computeItemsLoop]
  | cons img rest ih =>
    intro acc
    simp only [computeItemsLoop]
    cases h : img.RepoTags with
    | none =>
      simp only [h]
      rw [ih]
      simp [perImageItems, h]
    | some tags =>
      simp only [h]
      rw [foldl_push, ih]
      simp [perImageItems, h]

lemma perImageItems_length (img : ImageDesc) :
    (perImageItems img).length = imageItemCount img := by
  cases h : img.RepoTags <;> simp [perImageItems, imageItemCount, h]

lemma length_flatMap_perImageItems (images : List ImageDesc) :
    (images.flatMap perImageItems).length = (images.map imageItemCount).sum := by
  induction images with
  | nil => rfl
  | cons a as ih =>
    simp only [List.flatMap_cons, List.length_append, List.map_cons,
      List.sum_cons, ih, perImageItems_length]

/-! ## Claim theorems -/

/-- C1, counterexample: the FROM-line matcher is not the spec's pattern —
the line `FROM ubuntu:18.04` matches the spec's pattern but not the
source's `FROM_DIRECTIVE_PATTERN`, whose image class lacks the dot. -/
theorem fromDirectivePattern_spec_mismatch :
    specFromMatch "FROM ubuntu:18.04" = true ∧
    fromDirectiveMatch "FROM ubuntu:18.04" = false :=
  ⟨by decide, by decide⟩

/-- C1 (amended): the FROM-line matcher is the source's pattern
`^\s*FROM\s*([\w-\/:]*)(\s*AS\s*[a-z][a-z0-9-_\x5c.]*)?$` (case-insensitive):
every `FROM <image>` and `FROM <image> AS <alias>` line over the source's
image class (word characters, hyphen, slash, colon — no dot) is recognized,
while `FROM ubuntu:18.04`, whose image reference contains a dot, is not. -/
theorem fromDirectivePattern_amended (img : String) (c : Char) (cs : List Char)
    (hi : img.data.all codeImageChar = true)
    (hc : isAsciiLetter c = true)
    (hcs : cs.all codeAliasChar = true) :
    fromDirectiveMatch ("FROM " ++ img) = true ∧
    fromDirectiveMatch ("FROM " ++ img ++ " AS " ++ String.mk (c :: cs)) = true ∧
    fromDirectiveMatch "FROM ubuntu:18.04" = false := by
  refine ⟨?_, ?_, by decide⟩
  · apply reFull_of_mem
    have hd : ("FROM " ++ img).data =
        'F' :: 'R' :: 'O' :: 'M' :: ' ' :: img.data := by
      rw [strData_append]; rfl
    rw [hd]
    refine mem_reMatches_cat (mem_reMatches_starCls_self isJsSpace _) ?_
    refine mem_reMatches_cat (mem_litFROM _) ?_
    refine mem_reMatches_cat (mem_reMatches_starCls isJsSpace [' '] (by decide) _) ?_
    refine mem_reMatches_cat ?_ (mem_reMatches_opt_skip _ [])
    have h2 := mem_reMatches_starCls codeImageChar img.data hi []
    rwa [List.append_nil] at h2
  · apply reFull_of_mem
    have hd : ("FROM " ++ img ++ " AS " ++ String.mk (c :: cs)).data =
        'F' :: 'R' :: 'O' :: 'M' :: ' ' ::
          (img.data ++ (' ' :: 'A' :: 'S' :: ' ' :: (c :: cs))) := by
      simp only [strData_append, List.append_assoc]
      rfl
    rw [hd]
    refine mem_reMatches_cat (mem_reMatches_starCls_self isJsSpace _) ?_
    refine mem_reMatches_cat (mem_litFROM _) ?_
    refine mem_reMatches_cat (mem_reMatches_starCls isJsSpace [' '] (by decide) _) ?_
    refine mem_reMatches_cat (mem_reMatches_starCls codeImageChar img.data hi _) ?_
    refine mem_reMatches_opt_take ?_
    refine mem_reMatches_cat (mem_reMatches_starCls isJsSpace [' '] (by decide) _) ?_
    refine mem_reMatches_cat (mem_litAS _) ?_
    refine mem_reMatches_cat (mem_reMatches_starCls isJsSpace [' '] (by decide) _) ?_
    refine mem_reMatches_cat (mem_reMatches_cls hc _) ?_
    have h2 := mem_reMatches_starCls codeAliasChar cs hcs []
    rwa [List.append_nil] at h2

/-- Witness for C1 (amended), at `FROM node:14` and
`FROM node:14 AS builder`. -/
theorem fromDirectivePattern_amended_witness :
    fromDirectiveMatch ("FROM " ++ "node:14") = true ∧
    fromDirectiveMatch ("FROM " ++ "node:14" ++ " AS " ++
      String.mk ('b' :: ['u', 'i', 'l', 'd', 'e', 'r'])) = true ∧
    fromDirectiveMatch "FROM ubuntu:18.04" = false :=
  fromDirectivePattern_amended "node:14" 'b' ['u', 'i', 'l', 'd', 'e', 'r']
    (by decide) (by decide) (by decide)

/-- C2: the Compose structural parser is a total function and, for every
input string, returns a well-formed ParseResult: non-empty arena, root
sentinel with empty keyPath at index 0, all parent and child indices in
range, parents strictly below their children in the arena. -/
theorem parseCompose_total_wellFormed (text : String) :
    wellFormedB (parseCompose text) = true := by
  obtain ⟨hlen, hroot, hnodes⟩ := parseCompose_ok text
  simp only [wellFormedB, Bool.and_eq_true, Bool.or_eq_true, decide_eq_true_eq,
    List.all_eq_true, List.mem_range]
  refine ⟨hlen, hroot, ?_⟩
  intro i hi
  obtain ⟨h1, h2, h3⟩ := hnodes i hi
  refine ⟨h1, ?_, ?_⟩
  · rcases Nat.eq_zero_or_pos i with h0 | hpos
    · exact Or.inl h0
    · exact Or.inr (h2 hpos)
  · intro x hx
    exact h3 x hx

/-- C3: `resolve` never fails — for every document and position it returns
an in-range node index, it returns the root sentinel (index 0) whenever the
position precedes all content, and on the empty document it returns the
root sentinel. -/
theorem resolve_never_fails (text : String) (line col : Nat) :
    resolve (parseCompose text) line col < (parseCompose text).nodes.length ∧
    ((∀ nd ∈ (parseCompose text).nodes.drop 1, atOrBefore line col nd = false) →
      resolve (parseCompose text) line col = 0) ∧
    resolve (parseCompose "") line col = 0 := by
  obtain ⟨hlen, hroot, hnodes⟩ := parseCompose_ok text
  have hw : ∀ j, j < (parseCompose text).nodes.length →
      ((parseCompose text).nodes.getD j rootNode).parent <
        (parseCompose text).nodes.length :=
    fun j hj => (hnodes j hj).1
  refine ⟨?_, ?_, ?_⟩
  · have hcand : candidateIdx (parseCompose text) line col <
        (parseCompose text).nodes.length := by
      rcases lastHit_range line col (parseCompose text).nodes 0 0 with h | ⟨_h1, h2⟩
      · simp only [candidateIdx]
        rw [h]
        exact hlen
      · simp only [candidateIdx]
        omega
    exact climb_lt _ line col hlen hw _ _ hcand
  · intro hall
    have hcand : candidateIdx (parseCompose text) line col = 0 := by
      obtain ⟨nd0, rest, hcons⟩ :
          ∃ nd0 rest, (parseCompose text).nodes = nd0 :: rest := by
        cases hnl : (parseCompose text).nodes with
        | nil => rw [hnl] at hlen; simp at hlen
        | cons a b => exact ⟨a, b, rfl⟩
      have hrest : ∀ nd ∈ rest, atOrBefore line col nd = false := by
        intro nd hnd
        apply hall
        rw [hcons]
        simpa using hnd
      simp only [candidateIdx, hcons, lastHit]
      rw [if_neg (by simp)]
      exact lastHit_all_false line col rest 1 0 hrest
    simp only [resolve]
    rw [hcand, climb_zero]
  · have h0 : parseCompose "" = { nodes := [rootNode] } := rfl
    rw [h0]
    have hcand0 : candidateIdx { nodes := [rootNode] } line col = 0 := by
      simp [candidateIdx, lastHit]
    simp only [resolve]
    rw [hcand0, climb_zero]

/-- Witness for C3, at a document whose only node is the root sentinel. -/
theorem resolve_never_fails_witness :
    resolve (parseCompose "# comment") 5 2 = 0 ∧
    resolve (parseCompose "# comment") 5 2 <
      (parseCompose "# comment").nodes.length :=
  ⟨(resolve_never_fails "# comment" 5 2).2.1 (by decide),
   (resolve_never_fails "# comment" 5 2).1⟩

/-- C4: `complete` never offers a key label already present as a sibling at
the resolved level, and on `services:\n  web:\n    image: x\n` with the
cursor as a new sibling key under `web` it excludes `image` but offers
`build` and `ports`. -/
theorem complete_excludes_existing (text : String) (line col : Nat)
    (v : ComposeVariant) :
    ((complete text line col v).all (fun it =>
      !(siblingLabels (parseCompose text)
          (resolve (parseCompose text) line col)).contains it.label)) = true ∧
    ((complete "services:\n  web:\n    image: x\n" 3 4 .v2).map
      (fun it => it.label)).contains "image" = false ∧
    ((complete "services:\n  web:\n    image: x\n" 3 4 .v2).map
      (fun it => it.label)).contains "build" = true ∧
    ((complete "services:\n  web:\n    image: x\n" 3 4 .v2).map
      (fun it => it.label)).contains "ports" = true := by
  refine ⟨?_, by decide, by decide, by decide⟩
  simp only [complete, List.all_eq_true, List.mem_map, List.mem_filter]
  rintro it ⟨e, ⟨_he, hcond⟩, rfl⟩
  simpa using hcond

/-- C5: the hover lookup prefers the exact declared variant and falls back
to the `all` variant when no variant-specific entry exists, and `hover`
returns no result — not an error — over a value or unrecognized text. -/
theorem hover_variant_fallback (k : ComposeVersionKeys) (v : ComposeVariant)
    (name : String) :
    (assocLookup (variantMap k v) name = none →
      lookupDescription k v name = assocLookup k.All name) ∧
    (∀ d, assocLookup (variantMap k v) name = some d →
      lookupDescription k v name = some d) ∧
    hover "services:\n  web:\n    image: x\n" 2 11 .v2 = none ∧
    hover "services:\n  web:\n    image: x\n" 2 5 .v2 =
      some "The image to start the container from" ∧
    hover "!!garbage\n" 0 3 .v1 = none := by
  refine ⟨?_, ?_, by decide, by decide, by decide⟩
  · intro h
    simp [lookupDescription, h]
  · intro d h
    simp [lookupDescription, h]

/-- Witness for C5: `links` has no v2-specific entry, so v2 falls back to
the `all` variant; `image` has a v2 entry, which is preferred. -/
theorem hover_variant_fallback_witness :
    lookupDescription composeVersionKeys .v2 "links" =
      assocLookup composeVersionKeys.All "links" ∧
    lookupDescription composeVersionKeys .v2 "image" =
      some "The image to start the container from" :=
  ⟨(hover_variant_fallback composeVersionKeys .v2 "links").1 (by decide),
   (hover_variant_fallback composeVersionKeys .v2 "image").2.1
     "The image to start the container from" (by decide)⟩

/-- C6: parsing is deterministic — the parser is a pure function of the
input text, so parsing the same text twice yields structurally identical
trees. -/
theorem parseCompose_deterministic (text : String) :
    structEq (parseCompose text) (parseCompose text) = true :=
  decide_eq_true rfl

/-- C7: `FROM node:14 AS builder` parses to a record with instruction
`FROM` and stage alias `builder`; `FROM node:14` parses with no alias. -/
theorem parseFromLine_stage_alias :
    parseFromLine "FROM node:14 AS builder" =
      some { instruction := "FROM", baseImage := "node:14",
             stageAlias := some "builder" } ∧
    parseFromLine "FROM node:14" =
      some { instruction := "FROM", baseImage := "node:14",
             stageAlias := none } :=
  ⟨by decide, by decide⟩

/-- C8: the compose-file glob equals the spec's pattern, and classifies
compose files (and not Dockerfiles) as such. -/
theorem composeGlobPattern_correct :
    COMPOSE_FILE_GLOB_PATTERN = "**/[dD]ocker-[cC]ompose*.{yaml,yml}" ∧
    globMatch COMPOSE_FILE_GLOB_PATTERN "project/docker-compose.yml" = true ∧
    globMatch COMPOSE_FILE_GLOB_PATTERN "Docker-Compose.debug.yaml" = true ∧
    globMatch COMPOSE_FILE_GLOB_PATTERN "project/Dockerfile" = false :=
  ⟨rfl, by decide, by decide, by decide⟩

/-- C9, counterexample: the Dockerfile glob is not the spec's pattern —
the strings differ, and `a/DockerFile` matches the source's pattern but not
the spec's. -/
theorem dockerfileGlobPattern_spec_mismatch :
    DOCKERFILE_GLOB_PATTERN ≠ "**/{*.dockerfile,[dD]ockerfile}" ∧
    globMatch DOCKERFILE_GLOB_PATTERN "a/DockerFile" = true ∧
    globMatch "**/{*.dockerfile,[dD]ockerfile}" "a/DockerFile" = false :=
  ⟨by decide, by decide, by decide⟩

/-- C9 (amended): the Dockerfile glob equals
`**/{*.dockerfile,[dD]ocker[fF]ile}`: besides `*.dockerfile`, exactly the
four casings `{d,D}ocker{f,F}ile` match — not every casing of
`Dockerfile` (e.g. `DOCKERFILE` does not match). -/
theorem dockerfileGlobPattern_amended :
    DOCKERFILE_GLOB_PATTERN = "**/{*.dockerfile,[dD]ocker[fF]ile}" ∧
    globMatch DOCKERFILE_GLOB_PATTERN "a/Dockerfile" = true ∧
    globMatch DOCKERFILE_GLOB_PATTERN "a/dockerFile" = true ∧
    globMatch DOCKERFILE_GLOB_PATTERN "a/app.dockerfile" = true ∧
    globMatch DOCKERFILE_GLOB_PATTERN "a/DOCKERFILE" = false :=
  ⟨rfl, by decide, by decide, by decide, by decide⟩

/-- C10: `computeItems` yields one item per repo tag of each image in input
order, one `<none>:<none>` item per image without RepoTags, with the
`All Images` item first exactly when `includeAll` is set and the input is
non-empty; its length is the sum of the per-image counts plus one in that
case. -/
theorem computeItems_correct (images : List ImageDesc) (includeAll : Bool) :
    computeItems images includeAll =
      (if includeAll = true ∧ images ≠ [] then [allImagesItem] else []) ++
        images.flatMap perImageItems ∧
    (computeItems images includeAll).length =
      (images.map imageItemCount).sum +
        (if includeAll = true ∧ images ≠ [] then 1 else 0) := by
  have hloop : computeItemsLoop images [] = images.flatMap perImageItems := by
    simpa using computeItemsLoop_eq images []
  have hmain : computeItems images includeAll =
      (if includeAll = true ∧ images ≠ [] then [allImagesItem] else []) ++
        images.flatMap perImageItems := by
    cases includeAll <;> cases images <;> simp [computeItems, hloop]
  refine ⟨hmain, ?_⟩
  rw [hmain, List.length_append]
  have h1 : (if includeAll = true ∧ images ≠ [] then [allImagesItem]
      else []).length = (if includeAll = true ∧ images ≠ [] then 1 else 0) := by
    split <;> simp
  rw [h1, length_flatMap_perImageItems]
  omega

end VSDocker
